import Mathlib

/-
Verification of the maverick-mcp screening core against its specification.

The development shallowly embeds the Python source:
  - src/maverick_mcp/api/routers/trader_api.py
      (_content_hash, _staleness_label, _take_snapshot, screening_deltas,
       screening_cache_info, _unwrap_gathered, _fetch_extras, batch_analysis)
  - src/maverick_mcp/api/routers/screening.py
      (_merge_candidate, get_ranked_watchlist result shape)
  - src/maverick_mcp/utils/screening_scheduler.py
      (ScreeningScheduler._scheduler_loop trigger logic, run_screening)

Machine reals that the code only ever uses as exact decimals are modelled
as rationals; Python round(x, n) is modelled as round-half-to-even onto
multiples of 10^-n; dictionaries are modelled as association lists or as
functions to Option; asynchronous effects are modelled as explicit state
passing.
-/

-- ===========================================================================
-- SHA-256 (model of Python hashlib.sha256, per FIPS 180-4),
-- used by trader_api._content_hash
-- ===========================================================================

/-- Truncate a natural number to a 32-bit word. -/
def w32 (n : Nat) : Nat := n % 4294967296

/-- Right rotation of a 32-bit word. -/
def rotr (n x : Nat) : Nat := w32 ((x >>> n) ||| (x <<< (32 - n)))

def shaCh (x y z : Nat) : Nat := w32 ((x &&& y) ^^^ ((4294967295 - x) &&& z))

def shaMaj (x y z : Nat) : Nat := w32 ((x &&& y) ^^^ (x &&& z) ^^^ (y &&& z))

def shaS0 (x : Nat) : Nat := (rotr 2 x) ^^^ (rotr 13 x) ^^^ (rotr 22 x)

def shaS1 (x : Nat) : Nat := (rotr 6 x) ^^^ (rotr 11 x) ^^^ (rotr 25 x)

def shas0 (x : Nat) : Nat := (rotr 7 x) ^^^ (rotr 18 x) ^^^ (x >>> 3)

def shas1 (x : Nat) : Nat := (rotr 17 x) ^^^ (rotr 19 x) ^^^ (x >>> 10)

/-- The 64 SHA-256 round constants. -/
def shaK : List Nat :=
  [1116352408, 1899447441, 3049323471, 3921009573, 961987163,
   1508970993, 2453635748, 2870763221, 3624381080, 310598401,
   607225278, 1426881987, 1925078388, 2162078206, 2614888103,
   3248222580, 3835390401, 4022224774, 264347078, 604807628,
   770255983, 1249150122, 1555081692, 1996064986, 2554220882,
   2821834349, 2952996808, 3210313671, 3336571891, 3584528711,
   113926993, 338241895, 666307205, 773529912, 1294757372,
   1396182291, 1695183700, 1986661051, 2177026350, 2456956037,
   2730485921, 2820302411, 3259730800, 3345764771, 3516065817,
   3600352804, 4094571909, 275423344, 430227734, 506948616,
   659060556, 883997877, 958139571, 1322822218, 1537002063,
   1747873779, 1955562222, 2024104815, 2227730452, 2361852424,
   2428436474, 2756734187, 3204031479, 3329325298]

/-- The SHA-256 initial hash value. -/
def shaH0 : List Nat :=
  [1779033703, 3144134277, 1013904242, 2773480762,
   1359893119, 2600822924, 528734635, 1541459225]

/-- Pad a byte message per FIPS 180-4: append 0x80, zeros, and the 64-bit
big-endian bit length, to a multiple of 64 bytes. -/
def shaPad (msg : List Nat) : List Nat :=
  let L := msg.length
  let k := (64 + 55 - L % 64) % 64
  let bitLen := 8 * L
  msg ++ [0x80] ++ List.replicate k 0 ++
    [w32 (bitLen >>> 56) % 256, (bitLen >>> 48) % 256, (bitLen >>> 40) % 256,
     (bitLen >>> 32) % 256, (bitLen >>> 24) % 256, (bitLen >>> 16) % 256,
     (bitLen >>> 8) % 256, bitLen % 256]

/-- Group a padded byte list into big-endian 32-bit words. -/
def bytesToWords : List Nat → List Nat
  | b0 :: b1 :: b2 :: b3 :: rest =>
      (((b0 * 256 + b1) * 256 + b2) * 256 + b3) :: bytesToWords rest
  | _ => []

/-- Group a word list into 16-word blocks. -/
def wordsToBlocks : List Nat → List (List Nat)
  | w0 :: w1 :: w2 :: w3 :: w4 :: w5 :: w6 :: w7 ::
    w8 :: w9 :: w10 :: w11 :: w12 :: w13 :: w14 :: w15 :: rest =>
      [w0, w1, w2, w3, w4, w5, w6, w7, w8, w9, w10, w11, w12, w13, w14, w15] ::
        wordsToBlocks rest
  | _ => []

/-- Extend a 16-word block to the 64-word message schedule. -/
def shaSchedule (block : List Nat) : List Nat :=
  (List.range 48).foldl
    (fun ws _ =>
      let t := ws.length
      ws ++ [w32 (shas1 (ws.getD (t - 2) 0) + ws.getD (t - 7) 0 +
                  shas0 (ws.getD (t - 15) 0) + ws.getD (t - 16) 0)])
    block

/-- One SHA-256 compression round. -/
def shaRound (st : Nat × Nat × Nat × Nat × Nat × Nat × Nat × Nat)
    (kw : Nat × Nat) : Nat × Nat × Nat × Nat × Nat × Nat × Nat × Nat :=
  let (a, b, c, d, e, f, g, h) := st
  let t1 := w32 (h + shaS1 e + shaCh e f g + kw.1 + kw.2)
  let t2 := w32 (shaS0 a + shaMaj a b c)
  (w32 (t1 + t2), a, b, c, w32 (d + t1), e, f, g)

/-- Compress one block into the running hash state. -/
def shaCompress (H : List Nat) (block : List Nat) : List Nat :=
  let ws := shaSchedule block
  let a0 := H.getD 0 0
  let b0 := H.getD 1 0
  let c0 := H.getD 2 0
  let d0 := H.getD 3 0
  let e0 := H.getD 4 0
  let f0 := H.getD 5 0
  let g0 := H.getD 6 0
  let h0 := H.getD 7 0
  let fin := (shaK.zip ws).foldl shaRound (a0, b0, c0, d0, e0, f0, g0, h0)
  let (a, b, c, d, e, f, g, h) := fin
  [w32 (a0 + a), w32 (b0 + b), w32 (c0 + c), w32 (d0 + d),
   w32 (e0 + e), w32 (f0 + f), w32 (g0 + g), w32 (h0 + h)]

/-- SHA-256 digest of a byte message, as eight 32-bit words. -/
def sha256words (msg : List Nat) : List Nat :=
  (wordsToBlocks (bytesToWords (shaPad msg))).foldl shaCompress shaH0

/-- Lowercase hexadecimal digit. -/
def hexDigit (n : Nat) : Char :=
  if n < 10 then Char.ofNat (48 + n) else Char.ofNat (87 + n)

/-- Eight-hex-digit big-endian rendering of a 32-bit word. -/
def wordToHex (x : Nat) : String :=
  String.mk ([28, 24, 20, 16, 12, 8, 4, 0].map (fun s => hexDigit ((x >>> s) % 16)))

/-- Model of hashlib.sha256(...).hexdigest(). -/
def sha256hex (msg : List Nat) : String :=
  (sha256words msg).foldl (fun acc wrd => acc ++ wordToHex wrd) ""

/-- Bytes of an ASCII string (agrees with UTF-8 on the ASCII strings the
canonical JSON encoder emits). -/
def strBytes (s : String) : List Nat := s.data.map Char.toNat

theorem sha256_empty_vector :
    sha256hex (strBytes "") =
      "e3b0c44298fc1c149afbf4c8996fb92427ae41e4649b934ca495991b7852b855" := by
  decide

theorem sha256_abc_vector :
    sha256hex (strBytes "abc") =
      "ba7816bf8f01cfea414140de5dae2223b00361a396177a9cb410ff61f20015ad" := by
  decide

-- ===========================================================================
-- Rounding (model of Python round(x, ndigits) on exact decimal values:
-- round-half-to-even onto multiples of 10^-ndigits)
-- ===========================================================================

/-- Round scale * x to the nearest integer, ties to even, computed on the
numerator and denominator with integer arithmetic: with n / d the exact
value (d > 0), f its floor, the fractional part n / d - f is compared with
one half by comparing 2 * (n - f * d) with d. -/
def roundHalfEvenScaled (scale : ℤ) (x : ℚ) : ℤ :=
  let n := scale * x.num
  let d : ℤ := (x.den : ℤ)
  let f := n / d
  let twiceRem := 2 * (n - f * d)
  if twiceRem < d then f
  else if twiceRem > d then f + 1
  else if f % 2 = 0 then f else f + 1

/-- Model of Python round(x, 1). -/
def round1 (x : ℚ) : ℚ := Rat.divInt (roundHalfEvenScaled 10 x) 10

/-- Model of Python round(x, 2). -/
def round2 (x : ℚ) : ℚ := Rat.divInt (roundHalfEvenScaled 100 x) 100

-- ===========================================================================
-- trader_api._content_hash
-- ===========================================================================

/-- The part of a watchlist item that _content_hash reads: the ticker
(s.get("ticker", s.get("stock_symbol", ""))) and the score
(s.get("composite_score", s.get("combined_score", 0))). -/
structure Entry where
  ticker : String
  score : ℚ
deriving DecidableEq, Repr

/-- Python repr of a float that is an exact multiple of 1/100 (the values
round(score, 2) takes at the call sites): integer part, a dot, then one
fractional digit when the second is zero, else two. -/
def pyFloatRepr (x : ℚ) : String :=
  let n : ℤ := (100 * x.num) / (x.den : ℤ)
  let sign := if n < 0 then "-" else ""
  let m := n.natAbs
  let ip := m / 100
  let fr := m % 100
  if fr % 10 = 0 then sign ++ toString ip ++ "." ++ toString (fr / 10)
  else if fr < 10 then sign ++ toString ip ++ ".0" ++ toString fr
  else sign ++ toString ip ++ "." ++ toString fr

/-- One element of the canonical JSON array: json.dumps of the dict with
keys t and s, keys sorted (sort_keys=True orders "s" before "t"). -/
def canonEntry (e : Entry) : String :=
  "\x7b\"s\": " ++ pyFloatRepr (round2 e.score) ++ ", \"t\": \"" ++ e.ticker ++ "\"\x7d"

/-- json.dumps(list, sort_keys=True) with the default ", " item separator.
sort_keys only sorts keys inside each object; the list order is kept. -/
def canonJson (stocks : List Entry) : String :=
  "[" ++ String.intercalate ", " (stocks.map canonEntry) ++ "]"

/-- Model of trader_api._content_hash: first 16 hex characters of the
SHA-256 of the canonical JSON encoding. -/
def contentHash (stocks : List Entry) : String :=
  String.mk ((sha256hex (strBytes (canonJson stocks))).data.take 16)

-- ===========================================================================
-- trader_api._staleness_label
-- ===========================================================================

/-- Model of trader_api._staleness_label. The argument is the timestamp age
in seconds when datetime.fromisoformat succeeded, none when parsing raised. -/
def stalenessOfAge : Option ℚ → String
  | none => "unknown"
  | some age =>
      if age < 1800 then "fresh"
      else if age < 7200 then "stale"
      else "expired"

-- ===========================================================================
-- trader_api._take_snapshot and the snapshot ring buffer
-- ===========================================================================

/-- The snapshot dict appended to _screening_snapshots. Timestamps are
modelled as rational seconds since the epoch. -/
structure Snap where
  timestamp : ℚ
  content_hash : String
  count : Nat
  tickers : List String
  label : String
deriving DecidableEq, Repr

/-- The value _MAX_SNAPSHOTS. -/
def maxSnapshots : Nat := 24

/-- The snapshot dict _take_snapshot builds for a watchlist at time now. -/
def mkSnap (watchlist : List Entry) (now : ℚ) (label : String) : Snap :=
  { timestamp := now
    content_hash := contentHash watchlist
    count := watchlist.length
    tickers := watchlist.map Entry.ticker
    label := label }

/-- Model of trader_api._take_snapshot: append to the buffer, then pop the
front once when the length exceeds _MAX_SNAPSHOTS; returns the snapshot and
the new buffer. -/
def takeSnapshot (buf : List Snap) (watchlist : List Entry) (now : ℚ)
    (label : String) : Snap × List Snap :=
  let snap := mkSnap watchlist now label
  let buf1 := buf ++ [snap]
  (snap, if buf1.length > maxSnapshots then buf1.drop 1 else buf1)

/-- One _take_snapshot call's inputs. -/
structure SnapInput where
  watchlist : List Entry
  now : ℚ
  label : String
deriving DecidableEq, Repr

/-- Run a sequence of _take_snapshot calls against an initial buffer. -/
def snapRunFrom (buf : List Snap) (inputs : List SnapInput) : List Snap :=
  inputs.foldl (fun b i => (takeSnapshot b i.watchlist i.now i.label).2) buf

/-- Run a sequence of _take_snapshot calls from the empty buffer
(_screening_snapshots at process start). -/
def snapRun (inputs : List SnapInput) : List Snap := snapRunFrom [] inputs

/-- The last 24 elements of a list. -/
def last24 (l : List Snap) : List Snap := l.drop (l.length - maxSnapshots)

-- ===========================================================================
-- trader_api.screening_deltas
-- ===========================================================================

/-- The response of screening_deltas (fields of either returned dict;
fields absent from a branch are none). -/
structure DeltaResp where
  changed : Bool
  content_hash : String
  previous_hash : Option String
  entries : List String
  exits : List String
  unchanged_count : Nat
  current_count : Option Nat
  timestamp : Option ℚ
deriving DecidableEq, Repr

/-- Model of trader_api.screening_deltas. The current watchlist (the
result of get_ranked_watchlist) and the current time are passed in; the
snapshot ring buffer is threaded as explicit state. -/
def screeningDeltas (snaps : List Snap) (watchlist : List Entry)
    (sinceHash : String) (now : ℚ) : DeltaResp × List Snap :=
  let currentHash := contentHash watchlist
  let currentTickers := watchlist.map Entry.ticker
  if sinceHash ≠ "" ∧ sinceHash = currentHash then
    ({ changed := false
       content_hash := currentHash
       previous_hash := none
       entries := []
       exits := []
       unchanged_count := watchlist.length
       current_count := none
       timestamp := none }, snaps)
  else
    let prevTickers :=
      match snaps.reverse.find? (fun s => s.content_hash = sinceHash) with
      | some s => s.tickers
      | none => []
    let snapped := takeSnapshot snaps watchlist now "delta"
    ({ changed := true
       content_hash := currentHash
       previous_hash := if sinceHash = "" then none else some sinceHash
       entries := ((currentTickers.filter (fun t => t ∉ prevTickers)).eraseDups).insertionSort (· ≤ ·)
       exits := ((prevTickers.filter (fun t => t ∉ currentTickers)).eraseDups).insertionSort (· ≤ ·)
       unchanged_count := ((currentTickers.eraseDups).filter (fun t => t ∈ prevTickers)).length
       current_count := some currentTickers.length
       timestamp := some snapped.1.timestamp }, snapped.2)

-- ===========================================================================
-- screening.get_ranked_watchlist result shape, and
-- trader_api.screening_cache_info
-- ===========================================================================

/-- Values appearing in the get_ranked_watchlist result dict. -/
inductive JVal where
  | str (s : String)
  | num (q : ℚ)
  | strs (l : List String)
  | entries (l : List Entry)
  | opt (o : Option String)
  | obj (o : List (String × JVal))
deriving Repr

/-- The key/value pairs of the dict get_ranked_watchlist builds on success
(screening.py lines 490-502). -/
def rankedResultSuccess (watchlist : List Entry) (totalCandidates : Nat)
    (algorithmsQueried : List String) (maverickDate sdDate bearDate oldestDate : Option String) :
    List (String × JVal) :=
  [("status", JVal.str "success"),
   ("watchlist", JVal.entries watchlist),
   ("total_candidates", JVal.num totalCandidates),
   ("algorithms_queried", JVal.strs algorithmsQueried),
   ("screening_date", JVal.opt maverickDate),
   ("data_freshness", JVal.obj
      [("oldest_date", JVal.opt oldestDate),
       ("maverick_date", JVal.opt maverickDate),
       ("supply_demand_date", JVal.opt sdDate),
       ("bear_date", JVal.opt bearDate)])]

/-- The dict get_ranked_watchlist returns when an exception was caught. -/
def rankedResultError (e : String) : List (String × JVal) :=
  [("error", JVal.str e), ("status", JVal.str "error")]

/-- result.get("watchlist", []). -/
def watchlistOf (result : List (String × JVal)) : List Entry :=
  match result.lookup "watchlist" with
  | some (JVal.entries l) => l
  | _ => []

/-- result.get("timestamp") as a parsed time, none when the key is absent. -/
def timestampOf (result : List (String × JVal)) : Option ℚ :=
  match result.lookup "timestamp" with
  | some (JVal.num q) => some q
  | _ => none

/-- The response of screening_cache_info. -/
structure CacheInfoResp where
  content_hash : String
  count : Nat
  staleness : String
  timestamp : ℚ
deriving Repr

/-- Model of trader_api.screening_cache_info. now1 is the clock reading
taken for the timestamp fallback (line 239); now2 is the clock reading
taken inside _staleness_label. The ranked result and the ring buffer are
passed in; the buffer is threaded as state (auto-snapshot side effect). -/
def screeningCacheInfo (result : List (String × JVal)) (snaps : List Snap)
    (now1 now2 : ℚ) : CacheInfoResp × List Snap :=
  let watchlist := watchlistOf result
  let ch := contentHash watchlist
  let ts := (timestampOf result).getD now1
  let snaps1 := (takeSnapshot snaps watchlist now1 "cache-info").2
  ({ content_hash := ch
     count := watchlist.length
     staleness := stalenessOfAge (some (now2 - ts))
     timestamp := ts }, snaps1)

-- ===========================================================================
-- screening._merge_candidate and the merge fold
-- ===========================================================================

/-- A candidate dict as built by _merge_candidate: the fixed keys plus the
algorithm-specific display metrics passed as **data. -/
structure Candidate where
  ticker : String
  composite_score : ℚ
  algorithms : List String
  data : List (String × ℚ)
deriving DecidableEq, Repr

/-- The candidates dict, keyed by ticker. -/
def Cands := String → Option Candidate

/-- The empty candidates dict. -/
def emptyCands : Cands := fun _ => none

/-- Model of screening._merge_candidate: insert or replace on first sight
or on a strictly higher unrounded composite; otherwise add the algorithm
tag when missing and keep the maximum of the stored score and the rounded
new score. -/
def mergeCandidate (candidates : Cands) (ticker : String) (composite : ℚ)
    (algorithm : String) (data : List (String × ℚ)) : Cands :=
  match candidates ticker with
  | none =>
      fun t => if t = ticker then
        some { ticker := ticker
               composite_score := round1 composite
               algorithms := [algorithm]
               data := data }
        else candidates t
  | some c =>
      if composite > c.composite_score then
        fun t => if t = ticker then
          some { ticker := ticker
                 composite_score := round1 composite
                 algorithms := [algorithm]
                 data := data }
          else candidates t
      else
        fun t => if t = ticker then
          some { c with
                 algorithms :=
                   if algorithm ∈ c.algorithms then c.algorithms
                   else c.algorithms ++ [algorithm]
                 composite_score := max c.composite_score (round1 composite) }
          else candidates t

/-- One row's contribution to the merge: the arguments of one
_merge_candidate call. -/
structure MergeOp where
  ticker : String
  composite : ℚ
  algorithm : String
  data : List (String × ℚ)
deriving DecidableEq, Repr

/-- Fold a sequence of _merge_candidate calls over a candidates dict, in
processing order. -/
def foldMergeFrom (s : Cands) (ops : List MergeOp) : Cands :=
  ops.foldl (fun cs o => mergeCandidate cs o.ticker o.composite o.algorithm o.data) s

/-- Fold a sequence of _merge_candidate calls from the empty dict (the
state at the start of one get_ranked_watchlist merge pass). -/
def foldMerge (ops : List MergeOp) : Cands := foldMergeFrom emptyCands ops

/-- The rounded composite scores of the ops matching a ticker, in
processing order. -/
def roundsFor (t : String) (ops : List MergeOp) : List ℚ :=
  (ops.filter (fun o => o.ticker = t)).map (fun o => round1 o.composite)

-- ===========================================================================
-- screening_scheduler.ScreeningScheduler: trigger logic of _scheduler_loop
-- and the per-algorithm isolation of run_screening
-- ===========================================================================

/-- The projections of the exchange-local clock reading that one scheduler
wake-up uses: et_now.date(), et_now.weekday() (0 = Monday), and
et_now.time() as minutes since midnight. -/
structure ETNow where
  date : ℤ
  weekday : Nat
  timeMin : Nat
deriving DecidableEq, Repr

/-- The scheduler state the loop mutates: _last_run_date. -/
structure SchedState where
  lastRunDate : Option ℤ
deriving DecidableEq, Repr

/-- The outcome of the work one triggered iteration performs: whether the
daily bar refresh raised, and for each screening algorithm either the
number of rows inserted or none when that algorithm raised. Failures here
are all caught by the code (refresh at the loop level, algorithms inside
run_screening), so they never escape the iteration. -/
structure CycleOutcome where
  refreshFailed : Bool
  maverick : Option Nat
  bear : Option Nat
  supplyDemand : Option Nat
deriving DecidableEq, Repr

/-- The summary dict run_screening returns (counts default to 0 for a
failed algorithm; status is "completed" regardless, because every
per-algorithm exception is caught inside). -/
structure ScreenSummary where
  status : String
  maverick : Nat
  bear : Nat
  supplyDemand : Nat
deriving DecidableEq, Repr

/-- Model of ScreeningScheduler.run_screening on the path where no
exception escapes the whole pipeline: each algorithm is isolated by its
own try/except, so a failing algorithm only leaves its count at 0. -/
def runScreening (o : CycleOutcome) : ScreenSummary :=
  { status := "completed"
    maverick := o.maverick.getD 0
    bear := o.bear.getD 0
    supplyDemand := o.supplyDemand.getD 0 }

/-- The trigger predicate of _scheduler_loop: is_weekday and
past_screening_time and not_run_today. cfgTime is self.screening_time in
minutes since midnight. -/
def trigPredicate (cfgTime : Nat) (st : SchedState) (now : ETNow) : Bool :=
  decide (now.weekday < 5) && decide (cfgTime ≤ now.timeMin) &&
    decide (st.lastRunDate ≠ some now.date)

/-- Model of one non-raising wake-up of _scheduler_loop: when the trigger
predicate holds, run the refresh (failures swallowed) and run_screening,
then unconditionally set _last_run_date to the current date. Returns the
new state, whether the trigger fired, and the screening summary when it
did. -/
def schedStep (cfgTime : Nat) (st : SchedState) (now : ETNow)
    (o : CycleOutcome) : SchedState × Bool × Option ScreenSummary :=
  if trigPredicate cfgTime st now then
    ({ lastRunDate := some now.date }, true, some (runScreening o))
  else
    (st, false, none)

/-- Run a sequence of wake-ups of the loop, collecting the fired flag of
each. -/
def schedRun (cfgTime : Nat) (st : SchedState) :
    List (ETNow × CycleOutcome) → SchedState × List Bool
  | [] => (st, [])
  | w :: ws =>
      let r := schedStep cfgTime st w.1 w.2
      let rest := schedRun cfgTime r.1 ws
      (rest.1, r.2.1 :: rest.2)

-- ===========================================================================
-- trader_api batch analysis: _unwrap_gathered, _fetch_extras,
-- batch_analysis._analyse_one, batch_analysis
-- ===========================================================================

/-- What the technical analysis provider returned for one ticker: the
unchanged sentinel dict or a full result payload. -/
inductive TechRes where
  | unchangedS
  | full (d : String)
deriving DecidableEq, Repr

/-- A field of the batch result for one ticker after _unwrap_gathered: the
fetched value, or the error dict built from a captured exception. -/
inductive FieldVal where
  | ok (d : String)
  | err (e : String)
deriving DecidableEq, Repr

/-- Model of trader_api._unwrap_gathered on one gathered slot. -/
def unwrapGathered : Except String String → FieldVal
  | Except.ok d => FieldVal.ok d
  | Except.error e => FieldVal.err e

/-- Model of trader_api._fetch_extras: support/resistance always, news
only when include_news; each sub-fetch is gathered with
return_exceptions=True then unwrapped, so a failure becomes an embedded
error payload. -/
def fetchExtras (includeNews : Bool) (sr news : Except String String) :
    List (String × FieldVal) :=
  [("support_resistance", unwrapGathered sr)] ++
    (if includeNews then [("news", unwrapGathered news)] else [])

/-- The per-ticker dict _analyse_one returns (keys absent from a branch
are none / []). -/
structure TickerResult where
  technical : TechRes
  extras : List (String × FieldVal)
  changed : Option Bool
deriving DecidableEq, Repr

/-- Model of batch_analysis._analyse_one for one ticker, parameterised by
what the providers would return: with no fingerprint, technical and extras
run together and a technical exception escapes the task (the inner gather
has no return_exceptions); with a fingerprint, technical runs first and
the extras fetch is skipped when the provider reports the unchanged
sentinel. -/
def analyseOne (fp : Option String) (tech : Except String TechRes)
    (includeNews : Bool) (sr news : Except String String) :
    Except String TickerResult :=
  match fp with
  | none =>
      match tech with
      | Except.error e => Except.error e
      | Except.ok t =>
          Except.ok { technical := t
                      extras := fetchExtras includeNews sr news
                      changed := none }
  | some _ =>
      match tech with
      | Except.error e => Except.error e
      | Except.ok t =>
          if t = TechRes.unchangedS then
            Except.ok { technical := t, extras := [], changed := some false }
          else
            Except.ok { technical := t
                        extras := fetchExtras includeNews sr news
                        changed := none }

/-- How many extras-provider calls _fetch_extras makes when it runs:
one support/resistance task plus one news task when include_news. -/
def extrasProviderCalls (includeNews : Bool) : Nat :=
  1 + (if includeNews then 1 else 0)

/-- How many extras-provider calls the _analyse_one branches make: with no
fingerprint the extras fetch always starts (it is gathered concurrently
with the technical task); with a fingerprint it runs only when the
technical task succeeded with a result other than the unchanged
sentinel. -/
def extrasCalls (fp : Option String) (tech : Except String TechRes)
    (includeNews : Bool) : Nat :=
  match fp with
  | none => extrasProviderCalls includeNews
  | some _ =>
      match tech with
      | Except.error _ => 0
      | Except.ok t =>
          if t = TechRes.unchangedS then 0 else extrasProviderCalls includeNews

/-- Python dict assignment on an association list: replace in place when
the key exists, else append. -/
def dictInsert (m : List (String × TickerResult)) (k : String)
    (v : TickerResult) : List (String × TickerResult) :=
  if k ∈ m.map Prod.fst then
    m.map (fun p => if p.1 = k then (k, v) else p)
  else m ++ [(k, v)]

/-- Model of the aggregation loop of batch_analysis: tasks are gathered
with return_exceptions=True; a raised task is logged and skipped, a
completed task's (ticker, data) pair is written into the results dict.
outcome gives each (uppercased) ticker's task result. -/
def batchAnalysis (tickers : List String)
    (outcome : String → Except String TickerResult) :
    List (String × TickerResult) :=
  tickers.foldl
    (fun acc t =>
      match outcome t.toUpper with
      | Except.error _ => acc
      | Except.ok v => dictInsert acc t.toUpper v)
    []

-- ===========================================================================
-- Helper lemmas: rounding
-- ===========================================================================

/-- Multiples of one tenth: the values round1 produces and composite
scores take after storage. -/
def Mul10 (x : ℚ) : Prop := ∃ k : ℤ, x = k / 10

lemma round1_mul10 (x : ℚ) : Mul10 (round1 x) :=
  ⟨roundHalfEvenScaled 10 x, by rw [round1, Rat.divInt_eq_div]; norm_num⟩

lemma roundHalfEvenScaled_ge_ediv (s : ℤ) (x : ℚ) :
    (s * x.num) / (x.den : ℤ) ≤ roundHalfEvenScaled s x := by
  unfold roundHalfEvenScaled
  dsimp only
  split_ifs <;> omega

lemma le_round1_of_mul10_lt {m c : ℚ} (hm : Mul10 m) (h : m < c) : m ≤ round1 c := by
  obtain ⟨k, rfl⟩ := hm
  have hden : (0 : ℤ) < (c.den : ℤ) := by exact_mod_cast c.den_pos
  have hdq : (0 : ℚ) < (c.den : ℚ) := by exact_mod_cast c.den_pos
  have hkc : (k : ℚ) < 10 * c := by
    have hk : (k : ℚ) / 10 < c := h
    linarith
  have hq : (k : ℚ) * (c.den : ℚ) < 10 * (c.num : ℚ) := by
    have hc : ((c.num : ℚ) / (c.den : ℚ)) = c := Rat.num_div_den c
    calc (k : ℚ) * (c.den : ℚ)
        < (10 * c) * (c.den : ℚ) := by exact mul_lt_mul_of_pos_right hkc hdq
      _ = (10 * ((c.num : ℚ) / (c.den : ℚ))) * (c.den : ℚ) := by rw [hc]
      _ = 10 * (c.num : ℚ) := by field_simp
  have hint : k * (c.den : ℤ) ≤ 10 * c.num := by
    have : (k : ℤ) * (c.den : ℤ) < 10 * c.num := by exact_mod_cast hq
    omega
  have hf : k ≤ (10 * c.num) / (c.den : ℤ) := (Int.le_ediv_iff_mul_le hden).mpr hint
  have hR : k ≤ roundHalfEvenScaled 10 c :=
    le_trans hf (roundHalfEvenScaled_ge_ediv 10 c)
  have hRq : (k : ℚ) ≤ (roundHalfEvenScaled 10 c : ℚ) := by exact_mod_cast hR
  rw [round1, Rat.divInt_eq_div]
  linarith

lemma mul10_max {a b : ℚ} (ha : Mul10 a) (hb : Mul10 b) : Mul10 (max a b) := by
  rcases le_total a b with h | h
  · rwa [max_eq_right h]
  · rwa [max_eq_left h]

-- ===========================================================================
-- Claim C6 (corrected)
-- ===========================================================================

/-- Claim C6, counterexample: at an age of exactly 7200 seconds the claim
requires the label "stale", but _staleness_label tests age < 7200 and so
returns "expired". -/
theorem staleness_boundary_cex :
    stalenessOfAge (some 7200) = "expired" ∧ stalenessOfAge (some 7200) ≠ "stale" := by
  constructor <;> decide

/-- Claim C6 (amended): the staleness classification of a timestamp age in
seconds is "fresh" for age < 1800, "stale" for 1800 <= age < 7200,
"expired" for age >= 7200, and "unknown" for an unparsable timestamp. -/
theorem staleness_classification (age : ℚ) :
    (age < 1800 → stalenessOfAge (some age) = "fresh") ∧
    (1800 ≤ age → age < 7200 → stalenessOfAge (some age) = "stale") ∧
    (7200 ≤ age → stalenessOfAge (some age) = "expired") ∧
    stalenessOfAge none = "unknown" := by
  refine ⟨fun h => ?_, fun h1 h2 => ?_, fun h => ?_, rfl⟩
  · simp [stalenessOfAge, h]
  · simp [stalenessOfAge, not_lt.mpr h1, h2]
  · have h1 : (1800 : ℚ) ≤ age := by linarith
    simp [stalenessOfAge, not_lt.mpr h1, not_lt.mpr h]

/-- Witness for the amended C6 theorem at concrete ages. -/
theorem staleness_classification_w :
    stalenessOfAge (some 1799) = "fresh" ∧
    stalenessOfAge (some 1800) = "stale" ∧
    stalenessOfAge (some 7200) = "expired" :=
  ⟨(staleness_classification 1799).1 (by norm_num),
   (staleness_classification 1800).2.1 (by norm_num) (by norm_num),
   (staleness_classification 7200).2.2.1 (by norm_num)⟩

-- ===========================================================================
-- Claim C1 (corrected)
-- ===========================================================================

/-- Claim C1, counterexample: two watchlists that are permutations of each
other as ticker/score multisets on which _content_hash differs, because
json.dumps(..., sort_keys=True) sorts the keys inside each object but
keeps the list in input order. -/
theorem contentHash_perm_cex :
    ([⟨"A", 1⟩, ⟨"B", 2⟩] : List Entry).Perm [⟨"B", 2⟩, ⟨"A", 1⟩] ∧
    contentHash [⟨"A", 1⟩, ⟨"B", 2⟩] ≠ contentHash [⟨"B", 2⟩, ⟨"A", 1⟩] := by
  constructor
  · exact List.Perm.swap (⟨"B", 2⟩ : Entry) (⟨"A", 1⟩ : Entry) []
  · decide

/-- Claim C1 (amended): _content_hash is a pure function of the ordered
sequence of (ticker, round(score, 2)) pairs; two watchlists whose pair
sequences agree hash identically, but the hash is not invariant under
permutation of the candidate order. -/
theorem contentHash_pair_seq (l1 l2 : List Entry)
    (h : l1.map (fun e => (e.ticker, round2 e.score)) =
         l2.map (fun e => (e.ticker, round2 e.score))) :
    contentHash l1 = contentHash l2 := by
  have hmap : ∀ l : List Entry,
      l.map canonEntry =
        (l.map (fun e => (e.ticker, round2 e.score))).map
          (fun p => "\x7b\"s\": " ++ pyFloatRepr p.2 ++ ", \"t\": \"" ++ p.1 ++ "\"\x7d") := by
    intro l
    rw [List.map_map]
    rfl
  have hcanon : canonJson l1 = canonJson l2 := by
    unfold canonJson
    rw [hmap l1, hmap l2, h]
  unfold contentHash
  rw [hcanon]

/-- Witness for the amended C1 theorem: two entry lists with different raw
scores but equal rounded pair sequences hash identically. -/
theorem contentHash_pair_seq_w :
    contentHash [⟨"A", 100⟩] = contentHash [⟨"A", Rat.divInt 100001 1000⟩] :=
  contentHash_pair_seq [⟨"A", 100⟩] [⟨"A", Rat.divInt 100001 1000⟩] (by decide)

-- ===========================================================================
-- Claim C5 (corrected)
-- ===========================================================================

/-- Claim C5, counterexample: a screening_deltas call whose since_hash
equals the current content hash returns changed=false and leaves the ring
buffer untouched — no snapshot is appended on that path. -/
theorem screeningDeltas_no_snapshot_cex :
    (screeningDeltas [] [] (contentHash []) 0).1.changed = false ∧
    (screeningDeltas [] [] (contentHash []) 0).2 = [] := by
  constructor <;> decide

/-- Claim C5 (amended): screening_deltas appends a snapshot to the ring
buffer exactly when it does not take the changed=false early return; when
since_hash is nonempty and equals the current hash, the buffer is left
unchanged. -/
theorem screeningDeltas_snapshot (snaps : List Snap) (w : List Entry)
    (sh : String) (now : ℚ) :
    (sh ≠ "" ∧ sh = contentHash w →
      (screeningDeltas snaps w sh now).1.changed = false ∧
      (screeningDeltas snaps w sh now).2 = snaps) ∧
    (¬(sh ≠ "" ∧ sh = contentHash w) →
      (screeningDeltas snaps w sh now).1.changed = true ∧
      (screeningDeltas snaps w sh now).2 = (takeSnapshot snaps w now "delta").2) := by
  by_cases h : sh ≠ "" ∧ sh = contentHash w
  · refine ⟨fun _ => ?_, fun hn => absurd h hn⟩
    obtain ⟨h1, h2⟩ := h
    subst h2
    constructor <;> simp [screeningDeltas, h1]
  · refine ⟨fun hp => absurd hp h, fun _ => ?_⟩
    constructor <;> simp only [screeningDeltas, if_neg h]

/-- Witness for the amended C5 theorem on both branches at concrete
inputs. -/
theorem screeningDeltas_snapshot_w :
    ((screeningDeltas [] [] (contentHash []) 0).1.changed = false ∧
      (screeningDeltas [] [] (contentHash []) 0).2 = []) ∧
    ((screeningDeltas [] [⟨"A", 1⟩] "" 0).1.changed = true ∧
      (screeningDeltas [] [⟨"A", 1⟩] "" 0).2 = (takeSnapshot [] [⟨"A", 1⟩] 0 "delta").2) :=
  ⟨(screeningDeltas_snapshot [] [] (contentHash []) 0).1 ⟨by decide, rfl⟩,
   (screeningDeltas_snapshot [] [⟨"A", 1⟩] "" 0).2 (fun hp => hp.1 rfl)⟩

-- ===========================================================================
-- Claim C4 (confirmed): ring buffer capacity and FIFO eviction
-- ===========================================================================

lemma last24_of_le (l : List Snap) (h : l.length ≤ 24) : last24 l = l := by
  unfold last24 maxSnapshots
  have h0 : l.length - 24 = 0 := by omega
  simp [h0]

lemma last24_cons (a : Snap) (l : List Snap) (h : 24 ≤ l.length) :
    last24 (a :: l) = last24 l := by
  unfold last24 maxSnapshots
  have h1 : (a :: l).length - 24 = (l.length - 24) + 1 := by
    simp only [List.length_cons]
    omega
  rw [h1, List.drop_succ_cons]

lemma snapRunFrom_last24 (inputs : List SnapInput) :
    ∀ buf : List Snap, buf.length ≤ 24 →
      snapRunFrom buf inputs =
        last24 (buf ++ inputs.map (fun i => mkSnap i.watchlist i.now i.label)) := by
  induction inputs with
  | nil =>
      intro buf h
      simp only [snapRunFrom, List.foldl_nil, List.map_nil, List.append_nil]
      exact (last24_of_le buf h).symm
  | cons i inputs ih =>
      intro buf h
      have hstep : snapRunFrom buf (i :: inputs) =
          snapRunFrom ((takeSnapshot buf i.watchlist i.now i.label).2) inputs := rfl
      by_cases hlen : (buf ++ [mkSnap i.watchlist i.now i.label]).length > maxSnapshots
      · have h24 : buf.length = 24 := by
          simp only [List.length_append, List.length_singleton, maxSnapshots] at hlen h
          omega
        have htake : (takeSnapshot buf i.watchlist i.now i.label).2 =
            (buf ++ [mkSnap i.watchlist i.now i.label]).drop 1 := by
          show (if (buf ++ [mkSnap i.watchlist i.now i.label]).length > maxSnapshots
              then (buf ++ [mkSnap i.watchlist i.now i.label]).drop 1
              else buf ++ [mkSnap i.watchlist i.now i.label]) = _
          rw [if_pos hlen]
        have hlen2 : ((buf ++ [mkSnap i.watchlist i.now i.label]).drop 1).length ≤ 24 := by
          simp only [List.length_drop, List.length_append, List.length_singleton]
          omega
        rw [hstep, htake, ih _ hlen2]
        obtain ⟨b0, buf', rfl⟩ : ∃ b0 buf', buf = b0 :: buf' := by
          cases buf with
          | nil => simp at h24
          | cons b0 buf' => exact ⟨b0, buf', rfl⟩
        have h23 : buf'.length = 23 := by
          simp only [List.length_cons] at h24
          omega
        simp only [List.cons_append, List.drop_succ_cons, List.drop_zero, List.map_cons,
          List.append_assoc, List.singleton_append]
        have hge : 24 ≤ (buf' ++ mkSnap i.watchlist i.now i.label ::
            inputs.map (fun j => mkSnap j.watchlist j.now j.label)).length := by
          simp only [List.length_append, List.length_cons]
          omega
        exact (last24_cons b0 _ hge).symm
      · have htake : (takeSnapshot buf i.watchlist i.now i.label).2 =
            buf ++ [mkSnap i.watchlist i.now i.label] := by
          show (if (buf ++ [mkSnap i.watchlist i.now i.label]).length > maxSnapshots
              then (buf ++ [mkSnap i.watchlist i.now i.label]).drop 1
              else buf ++ [mkSnap i.watchlist i.now i.label]) = _
          rw [if_neg hlen]
        have hlen2 : (buf ++ [mkSnap i.watchlist i.now i.label]).length ≤ 24 := by
          simp only [maxSnapshots, not_lt] at hlen
          exact hlen
        rw [hstep, htake, ih _ hlen2, List.map_cons, List.append_assoc,
          List.singleton_append]

lemma snapRun_last24 (inputs : List SnapInput) :
    snapRun inputs = last24 (inputs.map (fun i => mkSnap i.watchlist i.now i.label)) := by
  have h := snapRunFrom_last24 inputs [] (by simp)
  simpa [snapRun] using h

/-- Claim C4: the snapshot ring buffer never exceeds 24 entries, and for
every sequence of 25 insertions from the empty buffer (with distinct
timestamps), the buffer afterwards holds exactly the 24 most recent
snapshots in oldest-first order and the first inserted snapshot is
absent. -/
theorem ringBuffer_capacity_fifo :
    (∀ inputs : List SnapInput, (snapRun inputs).length ≤ 24) ∧
    (∀ inputs : List SnapInput, inputs.length = 25 →
      (inputs.map SnapInput.now).Nodup →
      (snapRun inputs = (inputs.drop 1).map (fun i => mkSnap i.watchlist i.now i.label) ∧
       ∀ i0 ∈ inputs.take 1,
         mkSnap i0.watchlist i0.now i0.label ∉ snapRun inputs)) := by
  constructor
  · intro inputs
    rw [snapRun_last24]
    simp only [last24, maxSnapshots, List.length_drop]
    omega
  · intro inputs h25 hnd
    have heq : snapRun inputs =
        (inputs.drop 1).map (fun i => mkSnap i.watchlist i.now i.label) := by
      rw [snapRun_last24]
      unfold last24 maxSnapshots
      rw [List.length_map, h25, List.map_drop]
    refine ⟨heq, ?_⟩
    intro i0 hi0 hmem
    cases inputs with
    | nil => simp at h25
    | cons a tail =>
        simp only [List.take, List.mem_singleton, List.take_nil, List.take_succ_cons,
          List.take_zero, List.mem_cons, List.not_mem_nil, or_false] at hi0
        subst hi0
        rw [heq] at hmem
        simp only [List.drop_succ_cons, List.drop_zero] at hmem
        simp only [List.map_cons, List.nodup_cons] at hnd
        obtain ⟨j, hj, hjeq⟩ := List.mem_map.mp hmem
        have hts : j.now = i0.now := by
          have := congrArg Snap.timestamp hjeq
          simpa [mkSnap] using this
        exact hnd.1 (List.mem_map.mpr ⟨j, hj, hts⟩)

/-- Concrete sequence of 25 snapshot insertions with distinct timestamps. -/
def c4Inputs : List SnapInput :=
  (List.range 25).map (fun n => ⟨[], Rat.divInt n 1, "auto"⟩)

/-- Witness for the C4 theorem at the concrete 25-insertion sequence. -/
theorem ringBuffer_capacity_fifo_w :
    snapRun c4Inputs = (c4Inputs.drop 1).map (fun i => mkSnap i.watchlist i.now i.label) :=
  (ringBuffer_capacity_fifo.2 c4Inputs (by decide) (by decide)).1

-- ===========================================================================
-- Merge engine invariants (for claims C2 and C3)
-- ===========================================================================

/-- The stored candidate at one ticker is exactly the maximum of a list of
contributed (rounded) scores: absent when the list is empty, otherwise a
member of the list that bounds it. -/
def MaxOf (o : Option Candidate) (l : List ℚ) : Prop :=
  (o = none ↔ l = []) ∧
  ∀ c, o = some c → c.composite_score ∈ l ∧ ∀ x ∈ l, x ≤ c.composite_score

lemma roundsFor_nil (t : String) : roundsFor t [] = [] := rfl

lemma roundsFor_cons (t : String) (o : MergeOp) (ops : List MergeOp) :
    roundsFor t (o :: ops) =
      (if o.ticker = t then [round1 o.composite] else []) ++ roundsFor t ops := by
  by_cases h : o.ticker = t <;> simp [roundsFor, List.filter_cons, h]

lemma mergeCandidate_apply_ne {s : Cands} {o : MergeOp} {t : String}
    (ht : t ≠ o.ticker) :
    mergeCandidate s o.ticker o.composite o.algorithm o.data t = s t := by
  unfold mergeCandidate
  cases hso : s o.ticker with
  | none => simp [ht]
  | some c =>
      by_cases hgt : o.composite > c.composite_score <;> simp [hgt, ht]

lemma mergeCandidate_maxOf {s : Cands} {prev : String → List ℚ}
    (h10 : ∀ t x, x ∈ prev t → Mul10 x)
    (hs : ∀ t, MaxOf (s t) (prev t)) (o : MergeOp) (t : String) :
    MaxOf (mergeCandidate s o.ticker o.composite o.algorithm o.data t)
          (prev t ++ roundsFor t [o]) := by
  by_cases ht : t = o.ticker
  · subst ht
    have hr : roundsFor o.ticker [o] = [round1 o.composite] := by
      simp [roundsFor, List.filter_cons]
    rw [hr]
    unfold mergeCandidate
    cases hso : s o.ticker with
    | none =>
        have hprev : prev o.ticker = [] := ((hs o.ticker).1).mp hso
        rw [hprev]
        simp only [if_pos rfl, List.nil_append]
        constructor
        · simp
        · intro c hc
          injection hc with hc
          subst hc
          simp
    | some c =>
        obtain ⟨hmem, hbd⟩ := (hs o.ticker).2 c hso
        have hc10 : Mul10 c.composite_score := h10 o.ticker _ hmem
        by_cases hgt : o.composite > c.composite_score
        · dsimp only
          rw [if_pos hgt]
          simp only [if_pos rfl]
          have hle : c.composite_score ≤ round1 o.composite :=
            le_round1_of_mul10_lt hc10 hgt
          constructor
          · simp
          · intro c' hc'
            injection hc' with hc'
            subst hc'
            constructor
            · simp
            · intro x hx
              rcases List.mem_append.mp hx with hx | hx
              · exact le_trans (hbd x hx) hle
              · simp only [List.mem_singleton] at hx
                subst hx
                exact le_refl _
        · dsimp only
          rw [if_neg hgt]
          simp only [if_pos rfl]
          constructor
          · simp
          · intro c' hc'
            injection hc' with hc'
            subst hc'
            simp only
            constructor
            · rcases max_cases c.composite_score (round1 o.composite) with ⟨hm, _⟩ | ⟨hm, _⟩
              · rw [hm]
                exact List.mem_append.mpr (Or.inl hmem)
              · rw [hm]
                simp
            · intro x hx
              rcases List.mem_append.mp hx with hx | hx
              · exact le_trans (hbd x hx) (le_max_left _ _)
              · simp only [List.mem_singleton] at hx
                subst hx
                exact le_max_right _ _
  · have hr : roundsFor t [o] = [] := by
      have hne : o.ticker ≠ t := fun h => ht h.symm
      simp [roundsFor, List.filter_cons, hne]
    rw [hr, List.append_nil, mergeCandidate_apply_ne ht]
    exact hs t

lemma foldMergeFrom_maxOf (ops : List MergeOp) :
    ∀ (s : Cands) (prev : String → List ℚ),
    (∀ t x, x ∈ prev t → Mul10 x) →
    (∀ t, MaxOf (s t) (prev t)) →
    ∀ t, MaxOf (foldMergeFrom s ops t) (prev t ++ roundsFor t ops) := by
  induction ops with
  | nil =>
      intro s prev h10 hs t
      simpa [foldMergeFrom, roundsFor_nil] using hs t
  | cons o ops ih =>
      intro s prev h10 hs t
      have hstep : foldMergeFrom s (o :: ops) =
          foldMergeFrom (mergeCandidate s o.ticker o.composite o.algorithm o.data) ops := rfl
      have h10' : ∀ u x, x ∈ prev u ++ roundsFor u [o] → Mul10 x := by
        intro u x hx
        rcases List.mem_append.mp hx with hx | hx
        · exact h10 u x hx
        · by_cases hu : o.ticker = u
          · simp [roundsFor, List.filter_cons, hu] at hx
            exact hx ▸ round1_mul10 o.composite
          · simp [roundsFor, List.filter_cons, hu] at hx
      have hs' := mergeCandidate_maxOf h10 hs o
      have hfin := ih _ _ h10' hs' t
      rw [hstep]
      rw [roundsFor_cons]
      have hassoc : prev t ++ ((if o.ticker = t then [round1 o.composite] else []) ++
          roundsFor t ops) = (prev t ++ roundsFor t [o]) ++ roundsFor t ops := by
        rw [List.append_assoc]
        congr 2
        by_cases hu : o.ticker = t <;> simp [roundsFor, List.filter_cons, hu]
      rw [hassoc]
      exact hfin

lemma foldMerge_maxOf (ops : List MergeOp) (t : String) :
    MaxOf (foldMerge ops t) (roundsFor t ops) := by
  have base : ∀ u, MaxOf (emptyCands u) ((fun _ => ([] : List ℚ)) u) := by
    intro u
    constructor
    · simp [emptyCands]
    · intro c hc
      simp [emptyCands] at hc
  have h := foldMergeFrom_maxOf ops emptyCands (fun _ => []) (by intro u x hx; simp at hx) base t
  simpa [foldMerge] using h

-- ===========================================================================
-- Claim C2 (confirmed): final composite score is the maximum rounded
-- contribution, independent of processing order
-- ===========================================================================

/-- Claim C2: for every merge pass, a candidate's final composite_score is
the maximum of the composite scores (rounded to 1 decimal on storage)
contributed by the rows that matched its ticker, and the value does not
depend on the order in which the rows are processed. -/
theorem mergeScore_is_max (ops ops' : List MergeOp) (t : String) (c c' : Candidate)
    (hperm : ops.Perm ops')
    (hc : foldMerge ops t = some c) (hc' : foldMerge ops' t = some c') :
    c.composite_score ∈ roundsFor t ops ∧
    (∀ x ∈ roundsFor t ops, x ≤ c.composite_score) ∧
    c.composite_score = c'.composite_score := by
  obtain ⟨hmem, hbd⟩ := (foldMerge_maxOf ops t).2 c hc
  obtain ⟨hmem', hbd'⟩ := (foldMerge_maxOf ops' t).2 c' hc'
  have hp : (roundsFor t ops).Perm (roundsFor t ops') :=
    (hperm.filter _).map _
  refine ⟨hmem, hbd, ?_⟩
  exact le_antisymm (hbd' _ (hp.mem_iff.mp hmem)) (hbd _ (hp.mem_iff.mpr hmem'))

/-- Two concrete merge passes that are permutations of each other. -/
def c2Ops : List MergeOp := [⟨"A", 50, "alg1", []⟩, ⟨"A", 60, "alg2", []⟩]

def c2Ops' : List MergeOp := [⟨"A", 60, "alg2", []⟩, ⟨"A", 50, "alg1", []⟩]

/-- Witness for the C2 theorem at a concrete pair of permuted merge
passes. -/
theorem mergeScore_is_max_w :
    (⟨"A", 60, ["alg2"], []⟩ : Candidate).composite_score ∈ roundsFor "A" c2Ops ∧
    (∀ x ∈ roundsFor "A" c2Ops,
      x ≤ (⟨"A", 60, ["alg2"], []⟩ : Candidate).composite_score) ∧
    (⟨"A", 60, ["alg2"], []⟩ : Candidate).composite_score =
      (⟨"A", 60, ["alg2", "alg1"], []⟩ : Candidate).composite_score :=
  mergeScore_is_max c2Ops c2Ops' "A" ⟨"A", 60, ["alg2"], []⟩ ⟨"A", 60, ["alg2", "alg1"], []⟩
    (List.Perm.swap (⟨"A", 60, "alg2", []⟩ : MergeOp) (⟨"A", 50, "alg1", []⟩ : MergeOp) [])
    (by decide) (by decide)

-- ===========================================================================
-- Claim C3 (corrected): repeat sightings and the contributing-algorithm set
-- ===========================================================================

/-- States reachable by the merge keep candidates with duplicate-free
algorithm lists and scores that are multiples of one tenth. -/
def GoodState (s : Cands) : Prop :=
  ∀ t c, s t = some c → c.algorithms.Nodup ∧ Mul10 c.composite_score

lemma goodState_empty : GoodState emptyCands := by
  intro t c hc
  simp [emptyCands] at hc

lemma goodState_merge {s : Cands} (hg : GoodState s) (o : MergeOp) :
    GoodState (mergeCandidate s o.ticker o.composite o.algorithm o.data) := by
  intro t c hc
  by_cases ht : t = o.ticker
  · subst ht
    unfold mergeCandidate at hc
    cases hso : s o.ticker with
    | none =>
        rw [hso] at hc
        simp only [if_pos rfl, ite_true, Option.some.injEq] at hc
        subst hc
        exact ⟨List.nodup_singleton _, round1_mul10 _⟩
    | some c0 =>
        rw [hso] at hc
        obtain ⟨hnd0, h10c0⟩ := hg o.ticker c0 hso
        dsimp only at hc
        by_cases hgt : o.composite > c0.composite_score
        · rw [if_pos hgt] at hc
          simp only [if_pos rfl, ite_true, Option.some.injEq] at hc
          subst hc
          exact ⟨List.nodup_singleton _, round1_mul10 _⟩
        · rw [if_neg hgt] at hc
          simp only [if_pos rfl, ite_true, Option.some.injEq] at hc
          subst hc
          constructor
          · by_cases hm : o.algorithm ∈ c0.algorithms
            · simpa [hm] using hnd0
            · simp only [if_neg hm]
              simp [List.nodup_append, hnd0, hm]
          · exact mul10_max h10c0 (round1_mul10 _)
  · rw [mergeCandidate_apply_ne ht] at hc
    exact hg t c hc

lemma goodState_foldFrom (ops : List MergeOp) :
    ∀ s : Cands, GoodState s → GoodState (foldMergeFrom s ops) := by
  induction ops with
  | nil => intro s hs; exact hs
  | cons o ops ih =>
      intro s hs
      exact ih _ (goodState_merge hs o)

lemma goodState_fold (ops : List MergeOp) : GoodState (foldMerge ops) :=
  goodState_foldFrom ops emptyCands goodState_empty

/-- Claim C3, counterexample: two sightings of the same ticker where the
second has a strictly higher composite; the merged candidate's algorithm
list is reset to the second algorithm only, so the first tag algA,
although it matched the ticker, has been discarded. -/
theorem mergeAlgorithms_discard_cex :
    (foldMerge [⟨"X", 50, "algA", []⟩, ⟨"X", 60, "algB", []⟩]) "X" =
      some ⟨"X", 60, ["algB"], []⟩ ∧
    "algA" ∉ (["algB"] : List String) := by
  constructor
  · decide
  · decide

/-- Claim C3 (amended): on a repeat sighting the stored candidate keeps the
maximum of the existing score and the rounded new score; when the new
composite does not exceed the stored score the new algorithm tag is
appended, preserving first-appearance order with no duplicates; but when
the new composite strictly exceeds the stored score the candidate is
replaced and the previously recorded algorithm tags are discarded: the
list resets to the new algorithm alone. -/
theorem mergeAlgorithms_repeat (ops : List MergeOp) (op : MergeOp) (e e' : Candidate)
    (he : foldMerge ops op.ticker = some e)
    (he' : mergeCandidate (foldMerge ops) op.ticker op.composite op.algorithm op.data
      op.ticker = some e') :
    e'.composite_score = max e.composite_score (round1 op.composite) ∧
    (op.composite > e.composite_score → e'.algorithms = [op.algorithm]) ∧
    (¬ op.composite > e.composite_score →
      e'.algorithms =
        (if op.algorithm ∈ e.algorithms then e.algorithms
         else e.algorithms ++ [op.algorithm])) ∧
    e'.algorithms.Nodup := by
  obtain ⟨hnd, h10⟩ := goodState_fold ops op.ticker e he
  unfold mergeCandidate at he'
  rw [he] at he'
  dsimp only at he'
  by_cases hgt : op.composite > e.composite_score
  · rw [if_pos hgt] at he'
    simp only [if_pos rfl, ite_true, Option.some.injEq] at he'
    subst he'
    refine ⟨?_, fun _ => rfl, fun hn => absurd hgt hn, List.nodup_singleton _⟩
    exact (max_eq_right (le_round1_of_mul10_lt h10 hgt)).symm
  · rw [if_neg hgt] at he'
    simp only [if_pos rfl, ite_true, Option.some.injEq] at he'
    subst he'
    refine ⟨rfl, fun hp => absurd hp hgt, fun _ => rfl, ?_⟩
    by_cases hm : op.algorithm ∈ e.algorithms
    · simpa [hm] using hnd
    · simp only [if_neg hm]
      simp [List.nodup_append, hnd, hm]

/-- Concrete instances for the C3 witness. -/
def c3ops : List MergeOp := [⟨"X", 50, "algA", []⟩]

def c3op : MergeOp := ⟨"X", 60, "algB", []⟩

def c3e : Candidate := ⟨"X", 50, ["algA"], []⟩

def c3e' : Candidate := ⟨"X", 60, ["algB"], []⟩

/-- Witness for the amended C3 theorem at a concrete repeat sighting. -/
theorem mergeAlgorithms_repeat_w :
    c3e'.composite_score = max c3e.composite_score (round1 c3op.composite) ∧
    (c3op.composite > c3e.composite_score → c3e'.algorithms = [c3op.algorithm]) ∧
    (¬ c3op.composite > c3e.composite_score →
      c3e'.algorithms =
        (if c3op.algorithm ∈ c3e.algorithms then c3e.algorithms
         else c3e.algorithms ++ [c3op.algorithm])) ∧
    c3e'.algorithms.Nodup :=
  mergeAlgorithms_repeat c3ops c3op c3e c3e' (by decide) (by decide)

-- ===========================================================================
-- Claim C7 (confirmed): the scheduler fires at most once per
-- exchange-local calendar date
-- ===========================================================================

lemma trigPredicate_same_date (cfgTime : Nat) (d : ℤ) (now2 : ETNow)
    (h : now2.date = d) : trigPredicate cfgTime ⟨some d⟩ now2 = false := by
  simp [trigPredicate, h]

lemma schedRun_no_fire (cfgTime : Nat) (d : ℤ)
    (ws : List (ETNow × CycleOutcome)) (hall : ∀ w ∈ ws, w.1.date = d) :
    schedRun cfgTime ⟨some d⟩ ws = (⟨some d⟩, List.replicate ws.length false) := by
  induction ws with
  | nil => rfl
  | cons w ws ih =>
      have hw : w.1.date = d := hall w (by simp)
      have hpred : trigPredicate cfgTime ⟨some d⟩ w.1 = false :=
        trigPredicate_same_date cfgTime d w.1 hw
      have hstep : schedStep cfgTime ⟨some d⟩ w.1 w.2 = (⟨some d⟩, false, none) := by
        simp [schedStep, hpred]
      have hrest := ih (fun x hx => hall x (List.mem_cons_of_mem _ hx))
      simp [schedRun, hstep, hrest, List.replicate]

/-- Claim C7: when a wake-up of the scheduler loop fires the trigger,
last_run_date becomes the current exchange-local date; every subsequent
wake-up on the same date evaluates the trigger predicate (weekday, past
the configured time, not run today) to false and leaves the state
unchanged; and the state update is the same for every screening outcome —
last_run_date is set regardless of which screening algorithms inside the
run failed, whose summary reports completed either way. -/
theorem scheduler_once_per_date (cfgTime : Nat) (st : SchedState) (now : ETNow)
    (o : CycleOutcome) (ws : List (ETNow × CycleOutcome))
    (hfire : (schedStep cfgTime st now o).2.1 = true)
    (hsame : ∀ w ∈ ws, w.1.date = now.date) :
    (schedStep cfgTime st now o).1.lastRunDate = some now.date ∧
    (schedRun cfgTime (schedStep cfgTime st now o).1 ws).2 =
      List.replicate ws.length false ∧
    (schedRun cfgTime (schedStep cfgTime st now o).1 ws).1 =
      (schedStep cfgTime st now o).1 ∧
    (∀ o' : CycleOutcome,
      schedStep cfgTime st now o' =
        ({ lastRunDate := some now.date }, true, some (runScreening o')) ∧
      (runScreening o').status = "completed") := by
  have hpred : trigPredicate cfgTime st now = true := by
    by_cases hb : trigPredicate cfgTime st now = true
    · exact hb
    · rw [Bool.not_eq_true] at hb
      simp [schedStep, hb] at hfire
  have hstate : (schedStep cfgTime st now o).1 = ⟨some now.date⟩ := by
    simp [schedStep, hpred]
  have hrun := schedRun_no_fire cfgTime now.date ws hsame
  refine ⟨by rw [hstate], ?_, ?_, ?_⟩
  · rw [hstate, hrun]
  · rw [hstate, hrun]
  · intro o'
    exact ⟨by simp [schedStep, hpred], rfl⟩

/-- Friday 17:31 ET on day number 0. -/
def c7now : ETNow := ⟨0, 4, 1051⟩

/-- A cycle in which the refresh and every screening algorithm failed. -/
def c7o : CycleOutcome := ⟨true, none, none, none⟩

/-- The next minute's wake-up on the same date. -/
def c7ws : List (ETNow × CycleOutcome) := [(⟨0, 4, 1052⟩, ⟨false, some 5, some 4, some 3⟩)]

/-- Witness for the C7 theorem: configured time 17:30 (1050 minutes), no
prior run, trigger fires at 17:31 Friday; the 17:32 wake-up on the same
date does not fire. -/
theorem scheduler_once_per_date_w :
    (schedStep 1050 ⟨none⟩ c7now c7o).1.lastRunDate = some c7now.date ∧
    (schedRun 1050 (schedStep 1050 ⟨none⟩ c7now c7o).1 c7ws).2 =
      List.replicate c7ws.length false :=
  ⟨(scheduler_once_per_date 1050 ⟨none⟩ c7now c7o c7ws (by decide) (by decide)).1,
   (scheduler_once_per_date 1050 ⟨none⟩ c7now c7o c7ws (by decide) (by decide)).2.1⟩

-- ===========================================================================
-- Claim C8 (confirmed): fingerprint short-circuit skips the extras
-- providers
-- ===========================================================================

/-- Claim C8: when a fingerprint is supplied and the technical analysis
provider reports the unchanged sentinel, _analyse_one returns immediately
with changed false and no extras, and the support/resistance and news
providers are invoked zero times. -/
theorem fingerprint_shortcircuit (fp : String) (tech : Except String TechRes)
    (includeNews : Bool) (sr news : Except String String)
    (htech : tech = Except.ok TechRes.unchangedS) :
    analyseOne (some fp) tech includeNews sr news =
      Except.ok ⟨TechRes.unchangedS, [], some false⟩ ∧
    extrasCalls (some fp) tech includeNews = 0 := by
  subst htech
  exact ⟨rfl, rfl⟩

/-- Witness for the C8 theorem at a concrete ticker task. -/
theorem fingerprint_shortcircuit_w :
    analyseOne (some "fp1") (Except.ok TechRes.unchangedS) true
        (Except.ok "sr") (Except.ok "news") =
      Except.ok ⟨TechRes.unchangedS, [], some false⟩ ∧
    extrasCalls (some "fp1") (Except.ok TechRes.unchangedS) true = 0 :=
  fingerprint_shortcircuit "fp1" (Except.ok TechRes.unchangedS) true
    (Except.ok "sr") (Except.ok "news") rfl

-- ===========================================================================
-- Claim C9 (confirmed): failed top-level tasks are omitted; extras
-- failures are embedded error payloads
-- ===========================================================================

lemma mem_keys_dictInsert (m : List (String × TickerResult)) (k : String)
    (v : TickerResult) (k' : String) :
    k' ∈ (dictInsert m k v).map Prod.fst ↔ (k' = k ∨ k' ∈ m.map Prod.fst) := by
  unfold dictInsert
  by_cases hc : k ∈ m.map Prod.fst
  · rw [if_pos hc]
    have hkeys : (m.map (fun p => if p.1 = k then (k, v) else p)).map Prod.fst =
        m.map Prod.fst := by
      rw [List.map_map]
      congr 1
      funext p
      by_cases hp : p.1 = k <;> simp [hp]
    rw [hkeys]
    constructor
    · exact Or.inr
    · rintro (rfl | h)
      · exact hc
      · exact h
  · rw [if_neg hc]
    simp [or_comm]

lemma batch_keys (outcome : String → Except String TickerResult)
    (ts : List String) :
    ∀ (acc : List (String × TickerResult)) (k : String),
      (k ∈ ((ts.foldl (fun acc t =>
          match outcome t.toUpper with
          | Except.error _ => acc
          | Except.ok v => dictInsert acc t.toUpper v) acc)).map Prod.fst ↔
        (k ∈ acc.map Prod.fst ∨
          ∃ t ∈ ts, t.toUpper = k ∧ ∃ v, outcome t.toUpper = Except.ok v)) := by
  induction ts with
  | nil =>
      intro acc k
      simp
  | cons t ts ih =>
      intro acc k
      simp only [List.foldl_cons]
      cases ho : outcome t.toUpper with
      | error err =>
          simp only [ho]
          rw [ih]
          constructor
          · rintro (h | ⟨t', ht', rfl, hv⟩)
            · exact Or.inl h
            · exact Or.inr ⟨t', List.mem_cons_of_mem _ ht', rfl, hv⟩
          · rintro (h | ⟨t', ht', rfl, v, hv⟩)
            · exact Or.inl h
            · rcases List.mem_cons.mp ht' with rfl | ht'
              · rw [ho] at hv
                cases hv
              · exact Or.inr ⟨t', ht', rfl, v, hv⟩
      | ok v =>
          simp only [ho]
          rw [ih]
          constructor
          · rintro (h | ⟨t', ht', rfl, hv⟩)
            · rw [mem_keys_dictInsert] at h
              rcases h with rfl | h
              · exact Or.inr ⟨t, List.mem_cons_self t ts, rfl, v, ho⟩
              · exact Or.inl h
            · exact Or.inr ⟨t', List.mem_cons_of_mem _ ht', rfl, hv⟩
          · rintro (h | ⟨t', ht', rfl, w, hw⟩)
            · exact Or.inl (by rw [mem_keys_dictInsert]; exact Or.inr h)
            · rcases List.mem_cons.mp ht' with rfl | ht'
              · exact Or.inl (by rw [mem_keys_dictInsert]; exact Or.inl rfl)
              · exact Or.inr ⟨t', ht', rfl, w, hw⟩

/-- Claim C9: a requested ticker appears among the keys of the batch
result exactly when its top-level task completed without raising (a raised
task is omitted entirely); and a completed task whose support/resistance
sub-fetch failed still returns a result, carrying the failure as an
embedded error payload under the support_resistance field. -/
theorem batch_omission (tickers : List String)
    (outcome : String → Except String TickerResult) :
    (∀ t ∈ tickers,
      (t.toUpper ∈ (batchAnalysis tickers outcome).map Prod.fst ↔
        ∃ v, outcome t.toUpper = Except.ok v)) ∧
    (∀ (techR : TechRes) (includeNews : Bool) (e : String)
        (news : Except String String) (v : TickerResult),
      analyseOne none (Except.ok techR) includeNews (Except.error e) news =
        Except.ok v →
      ("support_resistance", FieldVal.err e) ∈ v.extras) := by
  constructor
  · intro t ht
    have h := batch_keys outcome tickers [] t.toUpper
    unfold batchAnalysis
    rw [h]
    constructor
    · rintro (h0 | ⟨t', ht', heq, w, hw⟩)
      · simp at h0
      · rw [heq] at hw
        exact ⟨w, hw⟩
    · rintro ⟨v, hv⟩
      exact Or.inr ⟨t, ht, rfl, v, hv⟩
  · intro techR includeNews e news v hv
    unfold analyseOne at hv
    injection hv with hv
    subst hv
    simp [fetchExtras, unwrapGathered]

/-- Per-ticker outcomes for the C9 witness: AAPL completes, every other
task raises. -/
def c9Outcome : String → Except String TickerResult :=
  fun k => if k = "AAPL" then Except.ok ⟨TechRes.full "d", [], none⟩
           else Except.error "boom"

/-- Witness for the C9 theorem: a completed ticker's key membership
equivalence, and an embedded support/resistance error payload for a
completed task with a failed extras sub-fetch. -/
theorem batch_omission_w :
    ("aapl".toUpper ∈ (batchAnalysis ["aapl", "msft"] c9Outcome).map Prod.fst ↔
      ∃ v, c9Outcome "aapl".toUpper = Except.ok v) ∧
    ("support_resistance", FieldVal.err "E") ∈
      (⟨TechRes.full "d", fetchExtras true (Except.error "E") (Except.ok "n"),
        none⟩ : TickerResult).extras :=
  ⟨(batch_omission ["aapl", "msft"] c9Outcome).1 "aapl" (by decide),
   (batch_omission ["aapl", "msft"] c9Outcome).2 (TechRes.full "d") true "E"
     (Except.ok "n")
     ⟨TechRes.full "d", fetchExtras true (Except.error "E") (Except.ok "n"), none⟩
     rfl⟩

-- ===========================================================================
-- Claim C10 (confirmed): screening_cache_info always reports fresh
-- ===========================================================================

/-- Claim C10: the dict get_ranked_watchlist returns has no timestamp key
(neither on success nor on error), so screening_cache_info substitutes the
current time as the timestamp; as long as the call finishes within 1800
seconds, the staleness label it returns is fresh. -/
theorem cacheinfo_always_fresh (wl : List Entry) (tc : Nat) (aq : List String)
    (md sd bd od : Option String) (e : String) (snaps : List Snap)
    (now1 now2 : ℚ) (hage : now2 - now1 < 1800) :
    ((rankedResultSuccess wl tc aq md sd bd od).lookup "timestamp" = none ∧
     (rankedResultError e).lookup "timestamp" = none) ∧
    (screeningCacheInfo (rankedResultSuccess wl tc aq md sd bd od) snaps
        now1 now2).1.staleness = "fresh" ∧
    (screeningCacheInfo (rankedResultError e) snaps now1 now2).1.staleness =
      "fresh" := by
  have h1 : (rankedResultSuccess wl tc aq md sd bd od).lookup "timestamp" = none := rfl
  have h2 : (rankedResultError e).lookup "timestamp" = none := rfl
  have ht1 : timestampOf (rankedResultSuccess wl tc aq md sd bd od) = none := by
    unfold timestampOf
    rw [h1]
  have ht2 : timestampOf (rankedResultError e) = none := by
    unfold timestampOf
    rw [h2]
  refine ⟨⟨h1, h2⟩, ?_, ?_⟩
  · simp only [screeningCacheInfo, ht1, Option.getD_none]
    simp [stalenessOfAge, hage]
  · simp only [screeningCacheInfo, ht2, Option.getD_none]
    simp [stalenessOfAge, hage]

/-- Witness for the C10 theorem at a concrete call. -/
theorem cacheinfo_always_fresh_w :
    (screeningCacheInfo (rankedResultSuccess [] 0 [] none none none none) []
        0 0).1.staleness = "fresh" :=
  (cacheinfo_always_fresh [] 0 [] none none none none "err" [] 0 0
    (by norm_num)).2.1
